import Mathlib

/-!
Verification development for the TeamSpeak–Discord bridge (src/Bridge.py).

Strings are modelled as `List Char` (Python `str` is a sequence of unicode
code points; all inputs used here are plain characters).  Each definition
below embeds one function or inline code fragment of `Bridge.py`; the line
numbers in the doc comments refer to that file.
-/

set_option maxRecDepth 20000

/-- Characters stripped by Python `str.strip()` and matched by the regex
class `\\s` on `str` input: exactly the code points with `str.isspace()`
true -- tab, newline, vertical tab, form feed, carriage return, the file,
group, record and unit separators U+1C-U+1F, space, next line U+85,
no-break space U+A0, ogham space mark U+1680, the space separators
U+2000-U+200A, the line and paragraph separators U+2028 and U+2029, the
narrow no-break space U+202F, the medium mathematical space U+205F and
the ideographic space U+3000. -/
def isPySpace (c : Char) : Bool :=
  c = ' ' || c = '\t' || c = '\n' || c = '\r' || c = '\x0B' || c = '\x0C' ||
  c = '\x1C' || c = '\x1D' || c = '\x1E' || c = '\x1F' ||
  c = '\x85' || c = '\xA0' || c = '\u1680' ||
  ('\u2000' ≤ c && c ≤ '\u200A') ||
  c = '\u2028' || c = '\u2029' || c = '\u202F' || c = '\u205F' || c = '\u3000'

/-- Python `str.strip()`: drop whitespace from both ends. -/
def stripPy (l : List Char) : List Char :=
  ((l.dropWhile isPySpace).reverse.dropWhile isPySpace).reverse

/-- Python `str.replace(old, new)` for a single-character `old`: every
occurrence of the character is replaced by `new` in one pass over the input
(replacement text is not rescanned). -/
def replaceChar (old : Char) (new : List Char) : List Char → List Char
  | [] => []
  | c :: cs => (if c = old then new else [c]) ++ replaceChar old new cs

/-- The decode table `_TS_DECODE_MAP` of Bridge.py lines 73–85: the character
following a backslash in a recognised two-character escape, mapped to the
literal character it stands for. -/
def tsDecodeTok (c : Char) : Option Char :=
  if c = 's' then some ' '
  else if c = '/' then some '/'
  else if c = 'p' then some '|'
  else if c = 'a' then some '\x07'
  else if c = 'b' then some '\x08'
  else if c = 'f' then some '\x0C'
  else if c = 'n' then some '\n'
  else if c = 'r' then some '\r'
  else if c = 't' then some '\t'
  else if c = 'v' then some '\x0B'
  else if c = '\\' then some '\\'
  else none

/-- `ts_decode` (Bridge.py lines 86–89): a single left-to-right regex pass
replacing each recognised two-character escape by its literal character.
A backslash not starting a recognised escape is copied unchanged and
scanning resumes at the following character. -/
def ts_decode : List Char → List Char
  | [] => []
  | ['\\'] => ['\\']
  | '\\' :: c :: rest =>
    match tsDecodeTok c with
    | some d => d :: ts_decode rest
    | none => '\\' :: ts_decode (c :: rest)
  | c :: rest => c :: ts_decode rest

/-- `ts_encode` (Bridge.py lines 91–104): eleven sequential
`str.replace` calls, escaping the backslash first and then the remaining
reserved characters in the order written in the source. -/
def ts_encode (v : List Char) : List Char :=
  replaceChar '\x0B' ['\\', 'v'] <|
  replaceChar '\t' ['\\', 't'] <|
  replaceChar '\r' ['\\', 'r'] <|
  replaceChar '\n' ['\\', 'n'] <|
  replaceChar '\x0C' ['\\', 'f'] <|
  replaceChar '\x08' ['\\', 'b'] <|
  replaceChar '\x07' ['\\', 'a'] <|
  replaceChar '|' ['\\', 'p'] <|
  replaceChar '/' ['\\', '/'] <|
  replaceChar ' ' ['\\', 's'] <|
  replaceChar '\\' ['\\', '\\'] v

/-- The reserved wire characters of the ServerQuery escape convention:
space, slash, pipe, bell, backspace, form-feed, newline, carriage-return,
tab, vertical-tab and backslash. -/
def reservedWireChars : List Char :=
  [' ', '/', '|', '\x07', '\x08', '\x0C', '\n', '\r', '\t', '\x0B', '\\']

/-- The two-character escape produced by `ts_encode` for each reserved wire
character (used only to state round-trip lemmas). -/
def wireEscape (c : Char) : List Char :=
  if c = '\\' then ['\\', '\\']
  else if c = ' ' then ['\\', 's']
  else if c = '/' then ['\\', '/']
  else if c = '|' then ['\\', 'p']
  else if c = '\x07' then ['\\', 'a']
  else if c = '\x08' then ['\\', 'b']
  else if c = '\x0C' then ['\\', 'f']
  else if c = '\n' then ['\\', 'n']
  else if c = '\r' then ['\\', 'r']
  else if c = '\t' then ['\\', 't']
  else if c = '\x0B' then ['\\', 'v']
  else [c]

/-- The conservative outbound escaping of the steady-state loop
(Bridge.py line 362):
`msg.replace("\\","\\\\").replace("|","\\p").replace("\n","\\n").replace("\r","\\r")`. -/
def safe_msg (m : List Char) : List Char :=
  replaceChar '\r' ['\\', 'r'] <|
  replaceChar '\n' ['\\', 'n'] <|
  replaceChar '|' ['\\', 'p'] <|
  replaceChar '\\' ['\\', '\\'] m

/-- Modelled from the spec's wording of the claim for comparison with
`safe_msg`: exactly backslash, pipe, newline and carriage-return are
replaced by their escape sequences, character by character, and every
other character is left unchanged. -/
def minimalEscapeSpec (m : List Char) : List Char :=
  m.flatMap fun c =>
    if c = '\\' then ['\\', '\\']
    else if c = '|' then ['\\', 'p']
    else if c = '\n' then ['\\', 'n']
    else if c = '\r' then ['\\', 'r']
    else [c]

/-- Case-insensitive character comparison, as performed by `re.IGNORECASE`
on the ASCII letters appearing in the patterns of Bridge.py. -/
def lowEq (p c : Char) : Bool := p.toLower = c.toLower

/-- Match a fixed literal pattern case-insensitively against a prefix of `s`.
On success, return the consumed original characters (the capture keeps the
original case) and the remaining input. -/
def matchCI : List Char → List Char → Option (List Char × List Char)
  | [], s => some ([], s)
  | _ :: _, [] => none
  | p :: ps, c :: cs =>
    if lowEq p c then (matchCI ps cs).map (fun pr => (c :: pr.1, pr.2)) else none

/-- One `re.sub`-style scanning pass: `t s` attempts a match at the head of
`s`, returning on success the replacement text to emit and the input
remaining after the matched part.  The scanner walks the string left to
right; on a match it emits the replacement and resumes after the match
(emitted text is not rescanned), otherwise it copies one character.  The
fuel argument bounds the recursion; it is always instantiated with the
length of the scanned string. -/
def scanSubFuel (t : List Char → Option (List Char × List Char)) :
    Nat → List Char → List Char
  | 0, s => s
  | _ + 1, [] => []
  | fuel + 1, c :: cs =>
    match t (c :: cs) with
    | some (o, r) => o ++ scanSubFuel t fuel r
    | none => c :: scanSubFuel t fuel cs

/-- `re.sub` of one pattern over a string, with `t` deciding a match at each
position. -/
def scanSub (t : List Char → Option (List Char × List Char)) (s : List Char) :
    List Char :=
  scanSubFuel t s.length s

/-- A matcher is consuming when a successful match at `c :: cs` leaves a rest
no longer than `cs`: it consumes at least the head character. -/
def Consumes (t : List Char → Option (List Char × List Char)) : Prop :=
  ∀ c cs o r, t (c :: cs) = some (o, r) → r.length ≤ cs.length

/-- Matcher for the regex `\[URL\]([^[]*)\[/URL\]` (IGNORECASE) of
`strip_bbcode`; the emitted replacement is the captured group `\1`.  The
greedy group `[^[]*` is forced to the maximal run of characters other than
a left bracket, since `\[/URL\]` can only start at a left bracket. -/
def tryUrlPair (s : List Char) : Option (List Char × List Char) :=
  match matchCI ("[URL]".data) s with
  | none => none
  | some (_, r1) =>
    let grp := r1.takeWhile (fun c => c != '[')
    let r2 := r1.dropWhile (fun c => c != '[')
    match matchCI ("[/URL]".data) r2 with
    | none => none
    | some (_, r3) => some (grp, r3)

/-- Matcher for the regex `\[URL=[^]]*\]([^[]*)\[/URL\]` (IGNORECASE) of
`strip_bbcode`; emits the captured group `\1`. -/
def tryUrlEq (s : List Char) : Option (List Char × List Char) :=
  match matchCI ("[URL=".data) s with
  | none => none
  | some (_, r1) =>
    match r1.dropWhile (fun c => c != ']') with
    | ']' :: r3 =>
      let grp := r3.takeWhile (fun c => c != '[')
      let r4 := r3.dropWhile (fun c => c != '[')
      match matchCI ("[/URL]".data) r4 with
      | none => none
      | some (_, r5) => some (grp, r5)
    | _ => none

/-- Matcher for the regex `\[URL\]([^[]*?)$` (IGNORECASE) of `strip_bbcode`:
matches an opening link tag whose remaining text contains no left bracket,
and emits that text (the match extends to the end of the string). -/
def tryUrlEnd (s : List Char) : Option (List Char × List Char) :=
  match matchCI ("[URL]".data) s with
  | none => none
  | some (_, r1) => if r1.all (fun c => c != '[') then some (r1, []) else none

/-- Matcher deleting one fixed literal (case-insensitively), used for the
`\[URL\]`, `\[/color\]` and `\[/size\]` patterns of `strip_bbcode`. -/
def tryLit (pat : List Char) (s : List Char) : Option (List Char × List Char) :=
  (matchCI pat s).map fun pr => ([], pr.2)

/-- Matcher deleting `\[/?name\]` (case-insensitively): the bold, italic,
underline, strikethrough and code patterns of `strip_bbcode`. -/
def tryTag (name : List Char) (s : List Char) : Option (List Char × List Char) :=
  match matchCI ('[' :: '/' :: name ++ [']']) s with
  | some (_, r) => some ([], r)
  | none =>
    match matchCI ('[' :: name ++ [']']) s with
    | some (_, r) => some ([], r)
    | none => none

/-- Matcher deleting `\[name=[^]]*\]` (case-insensitively): the color and
size opening patterns of `strip_bbcode`. -/
def tryParamTag (name : List Char) (s : List Char) :
    Option (List Char × List Char) :=
  match matchCI ('[' :: name ++ ['=']) s with
  | none => none
  | some (_, r1) =>
    match r1.dropWhile (fun c => c != ']') with
    | ']' :: r2 => some ([], r2)
    | _ => none

/-- `TS3BridgeThread.strip_bbcode` (Bridge.py lines 171–200): the regex
substitutions applied in source order, followed by `str.strip()`. -/
def strip_bbcode (text : List Char) : List Char :=
  let t1 := scanSub tryUrlPair text
  let t2 := scanSub tryUrlEq t1
  let t3 := scanSub tryUrlEnd t2
  let t4 := scanSub (tryLit ("[URL]".data)) t3
  let t5 := scanSub (tryTag ['b']) t4
  let t6 := scanSub (tryTag ['i']) t5
  let t7 := scanSub (tryTag ['u']) t6
  let t8 := scanSub (tryTag ['s']) t7
  let t9 := scanSub (tryTag ("code".data)) t8
  let t10 := scanSub (tryParamTag ("color".data)) t9
  let t11 := scanSub (tryLit ("[/color]".data)) t10
  let t12 := scanSub (tryParamTag ("size".data)) t11
  let t13 := scanSub (tryLit ("[/size]".data)) t12
  stripPy t13

/-- Matcher for `https?://(www\.)?host` (IGNORECASE) with a fixed
replacement, embedding one entry of the `url_transformations` table of
`transform_urls_for_discord`. -/
def trySocial (host repl : List Char) (s : List Char) :
    Option (List Char × List Char) :=
  match matchCI ("http".data) s with
  | none => none
  | some (_, r1) =>
    let r2opt : Option (List Char) :=
      match matchCI ("s://".data) r1 with
      | some (_, r2) => some r2
      | none => (matchCI ("://".data) r1).map (fun pr => pr.2)
    match r2opt with
    | none => none
    | some r2 =>
      match matchCI ("www.".data ++ host) r2 with
      | some (_, r3) => some (repl, r3)
      | none => (matchCI host r2).map fun pr => (repl, pr.2)

/-- `TS3BridgeThread.transform_urls_for_discord` (Bridge.py lines 214–245):
the two active rewrite rules (x.com and twitter.com), applied in order. -/
def transform_urls_for_discord (text : List Char) : List Char :=
  scanSub (trySocial ("twitter.com/".data) ("https://fxtwitter.com/".data))
    (scanSub (trySocial ("x.com/".data) ("https://fixupx.com/".data)) text)

/-- The character class `[^)\s]` of the attachment patterns: any character
other than a closing parenthesis or whitespace. -/
def runChar (c : Char) : Bool := !(c = ')') && !(isPySpace c)

/-- Image file extensions (Bridge.py line 540), in source order. -/
def image_extensions : List (List Char) :=
  ["png".data, "jpg".data, "jpeg".data, "gif".data, "bmp".data, "webp".data,
   "svg".data, "tiff".data, "tif".data, "ico".data, "heic".data, "heif".data,
   "jfif".data]

/-- Video file extensions (Bridge.py line 541), in source order. -/
def video_extensions : List (List Char) :=
  ["mp4".data, "avi".data, "mov".data, "mkv".data, "wmv".data, "flv".data,
   "webm".data, "m4v".data, "3gp".data, "ogv".data, "mpg".data, "mpeg".data,
   "mp2".data, "mpe".data, "mpv".data, "m2v".data]

/-- Audio file extensions (Bridge.py line 542), in source order. -/
def audio_extensions : List (List Char) :=
  ["mp3".data, "wav".data, "flac".data, "aac".data, "ogg".data, "m4a".data,
   "wma".data, "opus".data]

/-- The regex alternation `(?:ext1|ext2|…)` (IGNORECASE): the first
extension of the list matching a prefix of `s` wins. -/
def extsMatch (exts : List (List Char)) (s : List Char) :
    Option (List Char × List Char) :=
  match exts with
  | [] => none
  | e :: rest =>
    match matchCI e s with
    | some pr => some pr
    | none => extsMatch rest s

/-- Matcher for `\.(?:exts)` at the head of `s`. -/
def dotExtAt (exts : List (List Char)) (s : List Char) :
    Option (List Char × List Char) :=
  match s with
  | c :: rest =>
    if c = '.' then (extsMatch exts rest).map (fun pr => ('.' :: pr.1, pr.2))
    else none
  | [] => none

/-- The backtracking of the greedy run `[^)\s]*` against `\.(?:exts)`: the
rightmost position of `run` where a dot followed by one of the extensions
matches.  Returns the part of the run before the dot, the matched `.ext`
text, and the run remainder after it. -/
def lastDotSplit (exts : List (List Char)) :
    List Char → Option (List Char × List Char × List Char)
  | [] => none
  | c :: cs =>
    match lastDotSplit exts cs with
    | some (b, m, a) => some (c :: b, m, a)
    | none =>
      match dotExtAt exts (c :: cs) with
      | some (m, a) => some ([], m, a)
      | none => none

/-- Whether no extension of the list can start (case-insensitively) with the
character `c`; an empty extension counts as matching anything. -/
def extsFirstCharNo (exts : List (List Char)) (c : Char) : Bool :=
  exts.all fun e =>
    match e with
    | [] => false
    | p :: _ => !(lowEq p c)

/-- Whether every dot of the string is followed by end-of-string or by a
character no extension of the list can start with — a sufficient condition
for the attachment pattern over `exts` to match nowhere in the string. -/
def dotsSafe (exts : List (List Char)) : List Char → Bool
  | [] => true
  | c :: cs =>
    (if c = '.' then
        (match cs with
         | [] => true
         | d :: _ => extsFirstCharNo exts d)
      else true) && dotsSafe exts cs

/-- Matcher for the prefix `https?://cdn\.discordapp\.com/` of the
attachment patterns (IGNORECASE). -/
def tryCdnHost (s : List Char) : Option (List Char × List Char) :=
  match matchCI ("http".data) s with
  | none => none
  | some (o1, r1) =>
    match matchCI ("s://cdn.discordapp.com/".data) r1 with
    | some (o2, r2) => some (o1 ++ o2, r2)
    | none =>
      (matchCI ("://cdn.discordapp.com/".data) r1).map fun pr =>
        (o1 ++ pr.1, pr.2)

/-- The optional query group `(?:\?[^)\s]*)?` applied to the residue of the
greedy run after the matched extension (every character of that residue is
in `[^)\s]` by construction): when it starts with `?` the greedy group
consumes it all, otherwise nothing is consumed. -/
def querySplit : List Char → List Char × List Char
  | [] => ([], [])
  | c :: t => if c = '?' then (c :: t, []) else ([], c :: t)

/-- Matcher for one attachment pattern
`(https?://cdn\.discordapp\.com/[^)\s]*\.(?:exts)(?:\?[^)\s]*)?)` at the
head of `s` (IGNORECASE); the emitted replacement is `[URL=\1]label[/URL]`
with `\1` the full matched URL. -/
def tryAttachment (exts : List (List Char)) (label : List Char)
    (s : List Char) : Option (List Char × List Char) :=
  match tryCdnHost s with
  | none => none
  | some (host, r1) =>
    match lastDotSplit exts (r1.takeWhile runChar) with
    | none => none
    | some (before, m, afterRun) =>
      let qs := querySplit afterRun
      let url := host ++ before ++ m ++ qs.1
      some (("[URL=".data) ++ url ++ (']' :: label) ++ ("[/URL]".data),
        qs.2 ++ r1.dropWhile runChar)

/-- `shorten_discord_attachments` (Bridge.py lines 535–558): three
substitution passes replacing Discord CDN attachment URLs with
BBCode-wrapped links — image extensions first, then video, then audio. -/
def shorten_discord_attachments (content : List Char) : List Char :=
  scanSub (tryAttachment audio_extensions ("Click to download audio".data))
    (scanSub (tryAttachment video_extensions ("Click to download video".data))
      (scanSub (tryAttachment image_extensions ("Click to show image".data))
        content))

/-- Python `" ".join(...)`. -/
def joinSpace : List (List Char) → List Char
  | [] => []
  | [p] => p
  | p :: ps => p ++ ' ' :: joinSpace ps

/-- An inbound Discord message as seen by `on_message`: channel id, author
id and display name, webhook id (when webhook-originated), text content and
attachment URLs. -/
structure DMessage where
  channel_id : Int
  author_id : Int
  author_display_name : List Char
  webhook_id : Option Int
  content : List Char
  attachments : List (List Char)

/-- `on_message` (Bridge.py lines 560–600): the items pushed onto the
Discord-to-TS queue for one inbound Discord message (`[]` when the message
is filtered out, exactly one item otherwise).  `cfgChannel` is
DISCORD_CHANNEL_ID and `botId` the bridge bot's own user id. -/
def on_message (cfgChannel botId : Int) (m : DMessage) : List (List Char) :=
  if m.channel_id ≠ cfgChannel then []
  else if m.author_id = botId then []
  else if m.webhook_id.isSome then []
  else
    let parts :=
      (if m.content ≠ [] then [stripPy m.content] else []) ++
        m.attachments.map (fun u => '(' :: u ++ [')'])
    if parts = [] then []
    else
      let raw_content :=
        stripPy (joinSpace (parts.map fun p => stripPy (replaceChar '\n' [' '] p)))
      let content_for_ts := shorten_discord_attachments raw_content
      [m.author_display_name ++ (':' :: ' ' :: content_for_ts)]

/-- The outcome of the `clientinfo` call during username resolution: an
exception, a falsy/empty response, or a parsed response whose
`client_nickname` field is the given string (empty when absent). -/
inductive ClientInfoResult where
  | failure
  | noData
  | dataNick (nick : List Char)

/-- The username cache `self.username_cache`: a map from numeric client id
to the last cached display name. -/
abbrev Cache : Type := Int → Option (List Char)

/-- A parsed `notifytextmessage` event: `invokerid` as converted by
`int(data.get("invokerid", "0"))`, the three candidate name fields (empty
when missing, matching `data.get(..., "")`), and the raw message body. -/
structure TSEvent where
  invokerid : Int
  invokername : List Char
  invokernickname : List Char
  client_nickname : List Char
  msg : List Char

/-- First check of the resolution system (Bridge.py lines 386–397): scan
the candidate event fields in order and accept the first whose raw value is
non-empty and whose decoded, stripped value is non-empty. -/
def pickName : List (List Char) → Option (List Char)
  | [] => none
  | f :: rest =>
    if f ≠ [] ∧ stripPy (ts_decode f) ≠ [] then some (stripPy (ts_decode f))
    else pickName rest

/-- Python truthiness of the `invokername` variable: `None` and the empty
string are falsy. -/
def truthyName (o : Option (List Char)) : Bool := !(o.getD []).isEmpty

/-- The double-checker username resolution system of the steady-state loop
(Bridge.py lines 382–443): event fields first, then the cache, then a
direct `clientinfo` lookup (whose outcome is `ci`) with cache fallback,
then the synthesized placeholder.  Returns the resolved name and the
updated username cache. -/
def resolveName (cache : Cache) (ci : ClientInfoResult) (e : TSEvent) :
    List Char × Cache :=
  let id := e.invokerid
  let n1 := pickName [e.invokername, e.invokernickname, e.client_nickname]
  let n2 := if n1 = none ∧ 0 < id ∧ (cache id).isSome then cache id else n1
  let step3 : Option (List Char) × Cache :=
    if truthyName n2 = false ∧ 0 < id then
      match ci with
      | ClientInfoResult.dataNick nick =>
        if nick ≠ [] then
          let nm := stripPy (ts_decode nick)
          (some nm, fun i => if i = id then some nm else cache i)
        else if (cache id).isSome then (cache id, cache)
        else (n2, cache)
      | ClientInfoResult.noData =>
        if (cache id).isSome then (cache id, cache) else (n2, cache)
      | ClientInfoResult.failure =>
        if (cache id).isSome then (cache id, cache) else (n2, cache)
    else (n2, cache)
  let n4 :=
    if truthyName step3.1 then step3.1
    else some (("Client_".data) ++ (toString id).data)
  (n4.getD [], step3.2)

/-- Processing of one `notifytextmessage` event in the steady-state loop
(Bridge.py lines 376–465): resolve the sender name (the cache side effect
happens before the self check), then either discard the event as
self-originated (`if self.clid and invokerid == self.clid`, line 450) or
produce the bridged message pushed onto the TS-to-Discord queue. -/
def processEvent (clid : Int) (cache : Cache) (ci : ClientInfoResult)
    (e : TSEvent) : Option (List Char) × Cache :=
  let rn := resolveName cache ci e
  if clid ≠ 0 ∧ e.invokerid = clid then (none, rn.2)
  else
    let raw_msg := ts_decode e.msg
    let clean := stripPy (replaceChar '\n' [' '] (replaceChar '\r' [' '] raw_msg))
    let clean2 := transform_urls_for_discord (strip_bbcode clean)
    (some (("**".data) ++ rn.1 ++ ("**: ".data) ++ clean2), rn.2)

/-- The steady-state loop run over a synthetic sequence of channel-text
events, each paired with the outcome its `clientinfo` lookup would have:
the list of messages pushed onto the TS-to-Discord queue, and the final
username cache. -/
def runEvents (clid : Int) : Cache → List (TSEvent × ClientInfoResult) →
    List (List Char) × Cache
  | cache, [] => ([], cache)
  | cache, (e, ci) :: rest =>
    let st := processEvent clid cache ci e
    let out := runEvents clid st.2 rest
    (st.1.toList ++ out.1, out.2)

/-- The numeric value of a decimal digit, `none` otherwise. -/
def digitVal (c : Char) : Option Nat :=
  if '0' ≤ c && c ≤ '9' then some (c.toNat - '0'.toNat) else none

/-- Accumulating decimal parser over a digit run. -/
def pyNatAux : Nat → List Char → Option Nat
  | acc, [] => some acc
  | acc, c :: cs =>
    match digitVal c with
    | some d => pyNatAux (acc * 10 + d) cs
    | none => none

/-- Conversion of a string by Python `int(...)`, modelled for plain
optionally-negated decimal literals — the only forms this configuration and
the ServerQuery responses carry.  `none` models `int` raising `ValueError`. -/
def pyInt : List Char → Option Int
  | [] => none
  | '-' :: rest =>
    if rest = [] then none else (pyNatAux 0 rest).map (fun n => -(n : Int))
  | s => (pyNatAux 0 s).map (fun n => (n : Int))

/-- The identity handshake (Bridge.py lines 329–330):
`self.clid = int(whoami.parsed[0].get("client_id", "0"))`, with the field
of the whoami response given as `none` when absent (`none` on the result
would be a `ValueError` of `int`). -/
def whoamiClid (client_id : Option String) : Option Int :=
  pyInt (client_id.getD "0").data

/-- The username cache at thread start (`self.username_cache = {}`). -/
def emptyCache : Cache := fun _ => none

/-- The outcome of one connection attempt of `TS3BridgeThread.run`: an
exception before or during setup, or a session that reached the Active
steady-state loop and later dropped (keepalive failure). -/
inductive AttemptOutcome where
  | failEarly
  | activeThenDrop

/-- The reconnect loop of `TS3BridgeThread.run` (lines 248–252, 486–491):
starting from the current `backoff` value, every attempt — whatever its
outcome — ends with `time.sleep(backoff)` followed by
`backoff = min(backoff * 2, 30)`.  The delays slept are returned in order;
the code contains no statement resetting `backoff`. -/
def backoffDelays : Nat → List AttemptOutcome → List Nat
  | _, [] => []
  | b, _ :: rest => b :: backoffDelays (min (b * 2) 30) rest

/-- The delay sequence of the supervisor over a run of attempts, starting
from the initial `backoff = 2` of line 249. -/
def runAttempts (outcomes : List AttemptOutcome) : List Nat :=
  backoffDelays 2 outcomes

/-- The environment variables read at startup (Bridge.py lines 111–120),
each `none` when missing from the environment. -/
structure Env where
  discord_token : Option String
  discord_channel_id : Option String
  ts3_host : Option String
  ts3_voice_port : Option String
  ts3_query_port : Option String
  ts3_serverquery_username : Option String
  ts3_serverquery_password : Option String
  ts3_channel_id : Option String
  ts3_nickname : Option String

/-- `os.getenv(name, default)`. -/
def getenv (v : Option String) (d : String) : String := v.getD d

/-- Whether the process exits with a non-zero status during startup
(Bridge.py lines 111–127), before any connection is attempted: either one
of the `int(...)` conversions raises `ValueError`, or the
`raise SystemExit(...)` of line 126–127 fires because a checked value is
falsy.  Host, voice port, query port and nickname receive defaults
("127.0.0.1", "9987", "10011", "Bridge") when missing; the nickname is not
part of the check at all. -/
def startupExits (e : Env) : Bool :=
  let dcid := pyInt (getenv e.discord_channel_id "0").data
  let vp := pyInt (getenv e.ts3_voice_port "9987").data
  let qp := pyInt (getenv e.ts3_query_port "10011").data
  let tcid := pyInt (getenv e.ts3_channel_id "0").data
  if dcid.isNone || vp.isNone || qp.isNone || tcid.isNone then true
  else
    getenv e.discord_token "" == "" || dcid == some 0 ||
      getenv e.ts3_host "127.0.0.1" == "" ||
      getenv e.ts3_serverquery_username "" == "" ||
      getenv e.ts3_serverquery_password "" == "" || tcid == some 0

-- ---------------------------------------------------------------------------
-- Theorems
-- ---------------------------------------------------------------------------

theorem matchCI_eq_append :
    ∀ (p s o r : List Char), matchCI p s = some (o, r) → s = o ++ r := by
  intro p
  induction p with
  | nil =>
    intro s o r h
    simp only [matchCI, Option.some.injEq, Prod.mk.injEq] at h
    rw [← h.1, ← h.2]; rfl
  | cons x xs ih =>
    intro s o r h
    cases s with
    | nil => simp [matchCI] at h
    | cons c cs =>
      simp only [matchCI] at h
      by_cases hx : lowEq x c
      · simp only [hx, if_true, Option.map_eq_some'] at h
        obtain ⟨⟨o1, r1⟩, h1, h2⟩ := h
        simp only [Prod.mk.injEq] at h2
        rw [← h2.1, ← h2.2]
        simpa using ih cs o1 r1 h1
      · simp [hx] at h

theorem matchCI_append_right {p u o r : List Char} (w : List Char)
    (h : matchCI p u = some (o, r)) : matchCI p (u ++ w) = some (o, r ++ w) := by
  induction p generalizing u o r with
  | nil =>
    simp only [matchCI, Option.some.injEq, Prod.mk.injEq] at h ⊢
    exact ⟨h.1, by rw [← h.2]⟩
  | cons x xs ih =>
    cases u with
    | nil => simp [matchCI] at h
    | cons c cs =>
      simp only [matchCI] at h ⊢
      by_cases hx : lowEq x c
      · simp only [hx, if_true, Option.map_eq_some'] at h ⊢
        obtain ⟨⟨o1, r1⟩, h1, h2⟩ := h
        simp only [Prod.mk.injEq] at h2
        refine ⟨(o1, r1 ++ w), ih h1, ?_⟩
        simp only [Prod.mk.injEq]
        exact ⟨h2.1, by rw [← h2.2]⟩
      · simp [hx] at h

theorem scanSubFuel_congr {t : List Char → Option (List Char × List Char)}
    (ht : Consumes t) :
    ∀ (n : Nat) (s : List Char), s.length ≤ n → ∀ f g, s.length ≤ f →
      s.length ≤ g → scanSubFuel t f s = scanSubFuel t g s := by
  intro n
  induction n with
  | zero =>
    intro s hs f g _ _
    have : s = [] := List.eq_nil_of_length_eq_zero (Nat.le_zero.mp hs)
    subst this
    cases f <;> cases g <;> rfl
  | succ n ih =>
    intro s hs f g hf hg
    cases s with
    | nil => cases f <;> cases g <;> rfl
    | cons c cs =>
      simp only [List.length_cons] at hs hf hg
      cases f with
      | zero => omega
      | succ f' =>
        cases g with
        | zero => omega
        | succ g' =>
          cases hm : t (c :: cs) with
          | none =>
            simp only [scanSubFuel, hm]
            rw [ih cs (by omega) f' g' (by omega) (by omega)]
          | some pr =>
            obtain ⟨o, r⟩ := pr
            have hr : r.length ≤ cs.length := ht c cs o r hm
            simp only [scanSubFuel, hm]
            rw [ih r (by omega) f' g' (by omega) (by omega)]

theorem scanSub_cons_none {t : List Char → Option (List Char × List Char)}
    {c : Char} {cs : List Char} (h : t (c :: cs) = none) :
    scanSub t (c :: cs) = c :: scanSub t cs := by
  simp only [scanSub, List.length_cons, scanSubFuel, h]

theorem scanSub_cons_some {t : List Char → Option (List Char × List Char)}
    (ht : Consumes t) {c : Char} {cs o r : List Char}
    (h : t (c :: cs) = some (o, r)) :
    scanSub t (c :: cs) = o ++ scanSub t r := by
  have hr : r.length ≤ cs.length := ht c cs o r h
  simp only [scanSub, List.length_cons, scanSubFuel, h]
  congr 1
  exact scanSubFuel_congr ht cs.length r hr cs.length r.length hr (Nat.le_refl _)

theorem scanSub_of_no_match {t : List Char → Option (List Char × List Char)}
    {s : List Char} (h : ∀ n, t (s.drop n) = none) : scanSub t s = s := by
  induction s with
  | nil => rfl
  | cons c cs ih =>
    have h0 : t (c :: cs) = none := h 0
    rw [scanSub_cons_none h0, ih fun n => h (n + 1)]

theorem replaceChar_append (old : Char) (new : List Char) (a b : List Char) :
    replaceChar old new (a ++ b) = replaceChar old new a ++ replaceChar old new b := by
  induction a with
  | nil => rfl
  | cons c cs ih => simp [replaceChar, ih]

theorem ts_encode_append (a b : List Char) :
    ts_encode (a ++ b) = ts_encode a ++ ts_encode b := by
  simp [ts_encode, replaceChar_append]

theorem safe_msg_append (a b : List Char) :
    safe_msg (a ++ b) = safe_msg a ++ safe_msg b := by
  simp [safe_msg, replaceChar_append]

theorem ts_encode_reserved_single (c : Char) (h : c ∈ reservedWireChars) :
    ts_encode [c] = wireEscape c := by
  simp only [reservedWireChars, List.mem_cons, List.not_mem_nil, or_false] at h
  rcases h with h | h | h | h | h | h | h | h | h | h | h <;> subst h <;> decide

theorem ts_decode_wireEscape (c : Char) (h : c ∈ reservedWireChars) (l : List Char) :
    ts_decode (wireEscape c ++ l) = c :: ts_decode l := by
  simp only [reservedWireChars, List.mem_cons, List.not_mem_nil, or_false] at h
  rcases h with h | h | h | h | h | h | h | h | h | h | h <;> subst h <;>
    simp [wireEscape, ts_decode, tsDecodeTok]

/-- Claim C1: for every string made only of the reserved wire characters
(space, slash, pipe, bell, backspace, form-feed, newline, carriage-return,
tab, vertical-tab, backslash), decoding the encoding returns the original
string: `ts_decode (ts_encode s) = s`. -/
theorem ts_decode_ts_encode_roundtrip (s : List Char)
    (h : ∀ c ∈ s, c ∈ reservedWireChars) :
    ts_decode (ts_encode s) = s := by
  induction s with
  | nil => rfl
  | cons c cs ih =>
    have hc : c ∈ reservedWireChars := h c (List.mem_cons_self c cs)
    have hcs : ∀ x ∈ cs, x ∈ reservedWireChars := fun x hx => h x (List.mem_cons_of_mem c hx)
    have h1 : ts_encode (c :: cs) = wireEscape c ++ ts_encode cs := by
      have := ts_encode_append [c] cs
      simpa [ts_encode_reserved_single c hc] using this
    rw [h1, ts_decode_wireEscape c hc, ih hcs]

/-- Witness for C1: the round-trip theorem applied to the concrete string
consisting of all eleven reserved wire characters. -/
theorem ts_decode_ts_encode_roundtrip_witness :
    (∀ c ∈ reservedWireChars, c ∈ reservedWireChars) ∧
      ts_decode (ts_encode reservedWireChars) = reservedWireChars :=
  ⟨fun _ hc => hc, ts_decode_ts_encode_roundtrip reservedWireChars (fun _ hc => hc)⟩

theorem safe_msg_single (c : Char) : safe_msg [c] =
    (if c = '\\' then ['\\', '\\']
     else if c = '|' then ['\\', 'p']
     else if c = '\n' then ['\\', 'n']
     else if c = '\r' then ['\\', 'r']
     else [c]) := by
  by_cases h1 : c = '\\'
  · subst h1; decide
  · by_cases h2 : c = '|'
    · subst h2; decide
    · by_cases h3 : c = '\n'
      · subst h3; decide
      · by_cases h4 : c = '\r'
        · subst h4; decide
        · simp [safe_msg, replaceChar, h1, h2, h3, h4]

/-- Claim C5: the text sent over the query protocol for a message popped from
the platform-to-query queue equals the message with exactly backslash, pipe,
newline and carriage-return replaced by their escape sequences (backslash
first) and every other character, space and slash included, unchanged. -/
theorem safe_msg_eq_minimalEscapeSpec (m : List Char) :
    safe_msg m = minimalEscapeSpec m := by
  induction m with
  | nil => rfl
  | cons c cs ih =>
    have h1 : safe_msg (c :: cs) = safe_msg [c] ++ safe_msg cs := by
      have := safe_msg_append [c] cs
      simpa using this
    rw [h1, ih, safe_msg_single]
    simp [minimalEscapeSpec]

/-- Claim C9: the markup stripper applied to the exact input
string returns exactly the tag-free text with the link resolved. -/
theorem strip_bbcode_example :
    strip_bbcode ("[b]hi[/b] [URL]http://e.x/[/URL]".data) = ("hi http://e.x/".data) := by
  decide

theorem processEvent_fst_none_iff (clid : Int) (cache : Cache)
    (ci : ClientInfoResult) (e : TSEvent) :
    (processEvent clid cache ci e).1 = none ↔ (clid ≠ 0 ∧ e.invokerid = clid) := by
  unfold processEvent
  by_cases h : clid ≠ 0 ∧ e.invokerid = clid
  · simp [h]
  · simp [h]

/-- Claim C10: a received channel-text event is discarded as self-originated
iff the stored own client id is nonzero and equals the event's sender id;
in particular with a whoami client id of 0 no self-suppression occurs and
the event is relayed rather than discarded. -/
theorem self_suppression_iff (clid : Int) (cache : Cache)
    (ci : ClientInfoResult) (e : TSEvent) :
    ((processEvent clid cache ci e).1 = none ↔ (clid ≠ 0 ∧ e.invokerid = clid)) ∧
      (clid = 0 → (processEvent clid cache ci e).1 ≠ none) := by
  refine ⟨processEvent_fst_none_iff clid cache ci e, fun h0 hn => ?_⟩
  rcases (processEvent_fst_none_iff clid cache ci e).mp hn with ⟨hne, _⟩
  exact hne h0

/-- Witness for C10: the theorem instantiated at client id 0 and an event
whose sender id is 0. -/
theorem self_suppression_iff_witness :
    ((processEvent 0 emptyCache ClientInfoResult.failure
        ⟨0, [], [], [], []⟩).1 = none ↔ ((0 : Int) ≠ 0 ∧ (0 : Int) = 0)) ∧
      ((0 : Int) = 0 → (processEvent 0 emptyCache ClientInfoResult.failure
        ⟨0, [], [], [], []⟩).1 ≠ none) :=
  self_suppression_iff 0 emptyCache ClientInfoResult.failure ⟨0, [], [], [], []⟩

/-- Counterexample to claim C2 as stated: when the identity handshake
yields client id 0 (here: a whoami response without the `client_id` field),
a channel-text event whose sender id equals that connection id (0) is
pushed onto the TS-to-Discord queue rather than suppressed. -/
theorem self_event_pushed_at_zero_clid :
    whoamiClid none = some 0 ∧
      (⟨0, [], [], [], []⟩ : TSEvent).invokerid = 0 ∧
      (runEvents 0 emptyCache
        [(⟨0, [], [], [], []⟩, ClientInfoResult.failure)]).1.length = 1 := by
  refine ⟨by decide, rfl, by decide⟩

/-- Claim C2 amended: provided the client id obtained from the identity
handshake is nonzero, an event whose sender id equals it is never pushed
onto the TS-to-Discord queue — the queue gains exactly the events whose
sender id differs from the bridge's own id. -/
theorem no_self_events_on_queue (clid : Int) (hclid : clid ≠ 0) (cache : Cache)
    (evs : List (TSEvent × ClientInfoResult)) :
    (runEvents clid cache evs).1.length =
      (evs.filter (fun pr => pr.1.invokerid != clid)).length := by
  induction evs generalizing cache with
  | nil => rfl
  | cons pr rest ih =>
    obtain ⟨e, ci⟩ := pr
    by_cases he : e.invokerid = clid
    · have hnone : (processEvent clid cache ci e).1 = none :=
        (processEvent_fst_none_iff clid cache ci e).mpr ⟨hclid, he⟩
      simp [runEvents, hnone, List.filter_cons, he, ih]
    · have hsome : (processEvent clid cache ci e).1 ≠ none := fun hn =>
        he ((processEvent_fst_none_iff clid cache ci e).mp hn).2
      obtain ⟨msg, hmsg⟩ := Option.ne_none_iff_exists'.mp hsome
      simp [runEvents, hmsg, List.filter_cons, he, ih]

/-- Witness for the amended C2: one self event and one foreign event with a
nonzero connection id; only the foreign event is counted. -/
theorem no_self_events_on_queue_witness :
    (3 : Int) ≠ 0 ∧
      (runEvents 3 emptyCache
        [(⟨3, [], [], [], []⟩, ClientInfoResult.failure),
         (⟨4, [], [], [], []⟩, ClientInfoResult.failure)]).1.length =
      ([(⟨3, [], [], [], []⟩, ClientInfoResult.failure),
        ((⟨4, [], [], [], []⟩ : TSEvent), ClientInfoResult.failure)].filter
          (fun pr => pr.1.invokerid != 3)).length :=
  ⟨by decide, no_self_events_on_queue 3 (by decide) emptyCache _⟩

/-- Counterexample to claim C3 as stated: first attempt fails (delay 2),
second attempt reaches Active and later drops; the delay before the next
reconnect is 4, not the initial 2 — the code never resets `backoff` after
an attempt reaches Active. -/
theorem backoff_not_reset_after_active :
    runAttempts [AttemptOutcome.failEarly, AttemptOutcome.activeThenDrop] = [2, 4] ∧
      (4 : Nat) ≠ 2 :=
  ⟨by decide, by decide⟩

theorem backoffDelays_chain (b : Nat) (h2 : 2 ≤ b) (h30 : b ≤ 30)
    (os : List AttemptOutcome) :
    List.Chain' (fun x y => x ≤ y ∧ y = min (x * 2) 30) (backoffDelays b os) ∧
      (∀ d ∈ backoffDelays b os, 2 ≤ d ∧ d ≤ 30) := by
  induction os generalizing b with
  | nil => exact ⟨List.chain'_nil, by simp [backoffDelays]⟩
  | cons o rest ih =>
    have hb2 : 2 ≤ min (b * 2) 30 := by omega
    have hb30 : min (b * 2) 30 ≤ 30 := by omega
    obtain ⟨hc, hm⟩ := ih (min (b * 2) 30) hb2 hb30
    refine ⟨?_, ?_⟩
    · cases rest with
      | nil => simp [backoffDelays]
      | cons o' rest' =>
        refine List.chain'_cons.mpr ⟨⟨by omega, rfl⟩, ?_⟩
        simpa [backoffDelays] using hc
    · intro d hd
      rcases List.mem_cons.mp hd with h | h
      · omega
      · exact hm d h

/-- Claim C3 amended: the reconnect delay starts at 2 s; after every
attempt — whether it failed or reached Active and later dropped — the next
delay is `min (previous * 2) 30`, so the delay sequence is non-decreasing
and bounded by the 30 s ceiling, and it is never reset to the initial value
after an attempt that reaches Active. -/
theorem backoff_doubles_capped_never_resets (outcomes : List AttemptOutcome) :
    List.Chain' (fun x y => x ≤ y ∧ y = min (x * 2) 30) (runAttempts outcomes) ∧
      List.Chain' (· ≤ ·) (runAttempts outcomes) ∧
      (∀ d ∈ runAttempts outcomes, 2 ≤ d ∧ d ≤ 30) := by
  obtain ⟨hc, hm⟩ := backoffDelays_chain 2 (Nat.le_refl 2) (by omega) outcomes
  exact ⟨hc, hc.imp fun _ _ h => h.1, hm⟩

/-- Witness for the amended C3 at a concrete outcome sequence. -/
theorem backoff_doubles_capped_never_resets_witness :
    List.Chain' (fun x y => x ≤ y ∧ y = min (x * 2) 30)
        (runAttempts [AttemptOutcome.activeThenDrop, AttemptOutcome.failEarly]) ∧
      List.Chain' (· ≤ ·)
        (runAttempts [AttemptOutcome.activeThenDrop, AttemptOutcome.failEarly]) ∧
      (∀ d ∈ runAttempts [AttemptOutcome.activeThenDrop, AttemptOutcome.failEarly],
        2 ≤ d ∧ d ≤ 30) :=
  backoff_doubles_capped_never_resets _

/-- Counterexample to claim C7 as stated: an environment missing the
desired bot nickname (listed by the claim as required), with every other
variable present and non-falsy, does not make the process exit —
TS3_NICKNAME silently defaults to "Bridge". -/
theorem missing_nickname_no_exit :
    (Env.mk (some "tok") (some "1") (some "h") (some "9987") (some "10011")
        (some "u") (some "p") (some "2") none).ts3_nickname = none ∧
      startupExits (Env.mk (some "tok") (some "1") (some "h") (some "9987")
        (some "10011") (some "u") (some "p") (some "2") none) = false :=
  ⟨rfl, by decide⟩

/-- Claim C7 amended: if the platform bot token, the target platform
channel id, the query username, the query password or the target voice
channel id is missing from the environment, the process exits at startup
with a non-zero status before any connection is attempted; the query host,
voice port, query port and bot nickname are defaulted when missing and
their absence alone never causes the exit. -/
theorem missing_required_value_exits (e : Env)
    (h : e.discord_token = none ∨ e.discord_channel_id = none ∨
      e.ts3_serverquery_username = none ∨ e.ts3_serverquery_password = none ∨
      e.ts3_channel_id = none) :
    startupExits e = true := by
  have h0 : pyInt (("0" : String).data) = some 0 := by decide
  rcases h with h | h | h | h | h <;> simp [startupExits, getenv, h, h0]

/-- Witness for the amended C7: an environment missing the bot token
exits at startup. -/
theorem missing_required_value_exits_witness :
    (Env.mk none (some "1") (some "h") (some "9987") (some "10011")
        (some "u") (some "p") (some "2") (some "B")).discord_token = none ∧
      startupExits (Env.mk none (some "1") (some "h") (some "9987")
        (some "10011") (some "u") (some "p") (some "2") (some "B")) = true :=
  ⟨rfl, missing_required_value_exits _ (Or.inl rfl)⟩

/-- Claim C6: for a sender id whose display name was previously resolved
successfully and therefore cached (a non-empty cached entry), a later
resolution whose event payload contains no non-empty name field and whose
direct clientinfo lookup fails or returns empty yields the previously
cached name, not the synthesized placeholder.  In the code the cache check
precedes the lookup, so the cached name wins for any lookup outcome. -/
theorem cached_name_wins (cache : Cache) (id : Int) (n : List Char)
    (e : TSEvent) (ci : ClientInfoResult)
    (hcache : cache id = some n) (hn : n ≠ []) (hid : 0 < id)
    (hev : e.invokerid = id) (h1 : e.invokername = [])
    (h2 : e.invokernickname = []) (h3 : e.client_nickname = [])
    (_hci : ci = ClientInfoResult.failure ∨ ci = ClientInfoResult.noData ∨
      ci = ClientInfoResult.dataNick []) :
    (resolveName cache ci e).1 = n := by
  have htr : truthyName (some n) = true := by
    cases n with
    | nil => exact absurd rfl hn
    | cons a l => rfl
  simp [resolveName, hev, h1, h2, h3, hcache, hid, pickName, htr]

/-- Witness for C6: a cache holding "Alice" for id 7 and a failing lookup. -/
theorem cached_name_wins_witness :
    (fun i => if i = (7 : Int) then some ("Alice".data) else none) 7 =
        some ("Alice".data) ∧
      (resolveName (fun i => if i = (7 : Int) then some ("Alice".data) else none)
        ClientInfoResult.failure ⟨7, [], [], [], "hi".data⟩).1 = "Alice".data :=
  ⟨by decide,
    cached_name_wins _ 7 _ _ ClientInfoResult.failure (by decide) (by decide)
      (by decide) rfl rfl rfl rfl (Or.inl rfl)⟩

theorem matchCI_ne_nil {p : Char} {ps s o r : List Char}
    (h : matchCI (p :: ps) s = some (o, r)) : o ≠ [] := by
  cases s with
  | nil => simp [matchCI] at h
  | cons c cs =>
    simp only [matchCI] at h
    by_cases hx : lowEq p c
    · simp only [hx, if_true, Option.map_eq_some'] at h
      obtain ⟨pr, _, h2⟩ := h
      simp only [Prod.mk.injEq] at h2
      rw [← h2.1]
      simp
    · simp [hx] at h

theorem extsMatch_eq_append {exts : List (List Char)} {s o r : List Char}
    (h : extsMatch exts s = some (o, r)) : s = o ++ r := by
  induction exts with
  | nil => simp [extsMatch] at h
  | cons e rest ih =>
    simp only [extsMatch] at h
    cases hm : matchCI e s with
    | some pr =>
      rw [hm] at h
      obtain ⟨o1, r1⟩ := pr
      simp only [Option.some.injEq, Prod.mk.injEq] at h
      rw [← h.1, ← h.2]
      exact matchCI_eq_append e s o1 r1 hm
    | none =>
      rw [hm] at h
      exact ih h

theorem extsMatch_none_prefix {exts : List (List Char)} {u w : List Char}
    (h : extsMatch exts (u ++ w) = none) : extsMatch exts u = none := by
  induction exts with
  | nil => rfl
  | cons e rest ih =>
    simp only [extsMatch] at h ⊢
    cases hm : matchCI e u with
    | some pr =>
      obtain ⟨o, r⟩ := pr
      rw [matchCI_append_right w hm] at h
      simp at h
    | none =>
      cases hm2 : matchCI e (u ++ w) with
      | some pr2 => rw [hm2] at h; simp at h
      | none => rw [hm2] at h; exact ih h

theorem extsMatch_firstCharNo_none {exts : List (List Char)} {c : Char}
    (h : extsFirstCharNo exts c = true) (w : List Char) :
    extsMatch exts (c :: w) = none := by
  induction exts with
  | nil => rfl
  | cons e rest ih =>
    simp only [extsFirstCharNo, List.all_cons, Bool.and_eq_true] at h
    obtain ⟨he, hrest⟩ := h
    simp only [extsMatch]
    cases e with
    | nil => simp at he
    | cons p ps =>
      have hne : lowEq p c = false := by simpa using he
      simp only [matchCI, hne, Bool.false_eq_true, if_false]
      exact ih hrest

theorem extsMatch_empty_input {exts : List (List Char)}
    (h : ∀ e ∈ exts, e ≠ []) : extsMatch exts [] = none := by
  induction exts with
  | nil => rfl
  | cons e rest ih =>
    simp only [extsMatch]
    cases e with
    | nil => exact absurd rfl (h [] (List.mem_cons_self _ _))
    | cons p ps =>
      simp only [matchCI]
      exact ih fun x hx => h x (List.mem_cons_of_mem _ hx)

theorem dotExtAt_ne_dot {exts : List (List Char)} {c : Char} {cs : List Char}
    (h : ¬(c = '.')) : dotExtAt exts (c :: cs) = none := by
  simp [dotExtAt, h]

theorem dotExtAt_eq_append {exts : List (List Char)} {s m a : List Char}
    (h : dotExtAt exts s = some (m, a)) : s = m ++ a ∧ m ≠ [] := by
  cases s with
  | nil => simp [dotExtAt] at h
  | cons c cs =>
    simp only [dotExtAt] at h
    by_cases hc : c = '.'
    · rw [if_pos hc] at h
      cases hm : extsMatch exts cs with
      | none => rw [hm] at h; simp at h
      | some pr =>
        rw [hm] at h
        obtain ⟨o, a1⟩ := pr
        simp only [Option.map_some', Option.some.injEq, Prod.mk.injEq] at h
        refine ⟨?_, ?_⟩
        · rw [← h.1, ← h.2, hc]
          simpa using extsMatch_eq_append hm
        · rw [← h.1]; simp
    · simp [hc] at h

theorem lastDotSplit_decomp {exts : List (List Char)} :
    ∀ {l b m a : List Char}, lastDotSplit exts l = some (b, m, a) →
      l = b ++ m ++ a ∧ m ≠ [] := by
  intro l
  induction l with
  | nil => intro b m a h; simp [lastDotSplit] at h
  | cons c cs ih =>
    intro b m a h
    simp only [lastDotSplit] at h
    cases hm : lastDotSplit exts cs with
    | some pr =>
      rw [hm] at h
      obtain ⟨b1, m1, a1⟩ := pr
      simp only [Option.some.injEq, Prod.mk.injEq] at h
      obtain ⟨hb, hm1, ha⟩ := h
      obtain ⟨hdec, hne⟩ := ih hm
      refine ⟨?_, ?_⟩
      · rw [← hb, ← hm1, ← ha]
        simp [hdec]
      · rw [← hm1]; exact hne
    | none =>
      rw [hm] at h
      cases hd : dotExtAt exts (c :: cs) with
      | some pr2 =>
        rw [hd] at h
        obtain ⟨m2, a2⟩ := pr2
        simp only [Option.some.injEq, Prod.mk.injEq] at h
        obtain ⟨hb, hm2, ha⟩ := h
        obtain ⟨hdec, hne⟩ := dotExtAt_eq_append hd
        refine ⟨?_, ?_⟩
        · rw [← hb, ← hm2, ← ha]
          simpa using hdec
        · rw [← hm2]; exact hne
      | none => rw [hd] at h; simp at h

theorem lastDotSplit_none_of_all {exts : List (List Char)} {l : List Char}
    (h : ∀ i, dotExtAt exts (l.drop i) = none) : lastDotSplit exts l = none := by
  induction l with
  | nil => rfl
  | cons c cs ih =>
    have h0 : dotExtAt exts (c :: cs) = none := h 0
    have hrest : lastDotSplit exts cs = none := ih fun i => h (i + 1)
    simp [lastDotSplit, hrest, h0]

theorem lastDotSplit_append_some {exts : List (List Char)} {t b m a : List Char}
    (p : List Char) (h : lastDotSplit exts t = some (b, m, a)) :
    lastDotSplit exts (p ++ t) = some (p ++ b, m, a) := by
  induction p with
  | nil => simpa using h
  | cons c cs ih => simp [lastDotSplit, ih]

theorem takeWhile_all_true {f : Char → Bool} {l : List Char}
    (h : ∀ c ∈ l, f c = true) : l.takeWhile f = l := by
  induction l with
  | nil => rfl
  | cons c cs ih =>
    have hc := h c (List.mem_cons_self _ _)
    simp [List.takeWhile_cons, hc, ih fun x hx => h x (List.mem_cons_of_mem _ hx)]

theorem dropWhile_all_true {f : Char → Bool} {l : List Char}
    (h : ∀ c ∈ l, f c = true) : l.dropWhile f = [] := by
  induction l with
  | nil => rfl
  | cons c cs ih =>
    have hc := h c (List.mem_cons_self _ _)
    simp [List.dropWhile_cons, hc, ih fun x hx => h x (List.mem_cons_of_mem _ hx)]

theorem takeWhile_append_break {f : Char → Bool} {a z : List Char}
    (ha : ∀ c ∈ a, f c = true)
    (hz : z = [] ∨ ∃ d w, z = d :: w ∧ f d = false) :
    (a ++ z).takeWhile f = a ∧ (a ++ z).dropWhile f = z := by
  induction a with
  | nil =>
    rcases hz with hz | ⟨d, w, hz, hd⟩
    · subst hz; exact ⟨rfl, rfl⟩
    · subst hz
      simp [List.takeWhile_cons, List.dropWhile_cons, hd]
  | cons c cs ih =>
    have hc := ha c (List.mem_cons_self _ _)
    obtain ⟨h1, h2⟩ := ih (fun x hx => ha x (List.mem_cons_of_mem _ hx))
    simp [List.takeWhile_cons, List.dropWhile_cons, hc, h1, h2]

theorem tryCdnHost_eq {s h r : List Char} (hm : tryCdnHost s = some (h, r)) :
    s = h ++ r ∧ h ≠ [] := by
  unfold tryCdnHost at hm
  cases h1 : matchCI ("http".data) s with
  | none => exact Option.noConfusion (h1 ▸ hm)
  | some pr1 =>
    simp only [h1] at hm
    obtain ⟨o1, r1⟩ := pr1
    have ho1 : s = o1 ++ r1 := matchCI_eq_append _ _ _ _ h1
    have ho1ne : o1 ≠ [] :=
      matchCI_ne_nil (show matchCI ('h' :: ("ttp".data)) s = some (o1, r1) from h1)
    cases h2 : matchCI ("s://cdn.discordapp.com/".data) r1 with
    | some pr2 =>
      simp only [h2] at hm
      obtain ⟨o2, r2⟩ := pr2
      simp only [Option.some.injEq, Prod.mk.injEq] at hm
      have hr1 : r1 = o2 ++ r2 := matchCI_eq_append _ _ _ _ h2
      refine ⟨?_, ?_⟩
      · rw [← hm.1, ← hm.2, ho1, hr1]
        simp [List.append_assoc]
      · rw [← hm.1]
        intro hx
        rw [List.append_eq_nil] at hx
        exact ho1ne hx.1
    | none =>
      simp only [h2] at hm
      cases h3 : matchCI ("://cdn.discordapp.com/".data) r1 with
      | none => simp only [h3] at hm; simp at hm
      | some pr3 =>
        simp only [h3] at hm
        obtain ⟨o3, r3⟩ := pr3
        simp only [Option.map_some', Option.some.injEq, Prod.mk.injEq] at hm
        have hr1 : r1 = o3 ++ r3 := matchCI_eq_append _ _ _ _ h3
        refine ⟨?_, ?_⟩
        · rw [← hm.1, ← hm.2, ho1, hr1]
          simp [List.append_assoc]
        · rw [← hm.1]
          intro hx
          rw [List.append_eq_nil] at hx
          exact ho1ne hx.1

theorem querySplit_spec (a : List Char) :
    (querySplit a).1 ++ (querySplit a).2 = a ∧
      (querySplit a).2.length ≤ a.length := by
  cases a with
  | nil => exact ⟨rfl, Nat.le_refl _⟩
  | cons c t =>
    by_cases hc : c = '?'
    · simp [querySplit, hc]
    · simp [querySplit, hc]

theorem tryAttachment_consumes (exts : List (List Char)) (label : List Char) :
    Consumes (tryAttachment exts label) := by
  intro c cs o r h
  unfold tryAttachment at h
  cases hh : tryCdnHost (c :: cs) with
  | none => exact Option.noConfusion (hh ▸ h)
  | some pr =>
    simp only [hh] at h
    obtain ⟨host, r1⟩ := pr
    obtain ⟨hs, hne⟩ := tryCdnHost_eq hh
    cases hld : lastDotSplit exts (r1.takeWhile runChar) with
    | none => exact Option.noConfusion (hld ▸ h)
    | some pr2 =>
      simp only [hld] at h
      obtain ⟨b, m, a⟩ := pr2
      simp only [Option.some.injEq, Prod.mk.injEq] at h
      obtain ⟨hdec, hmne⟩ := lastDotSplit_decomp hld
      obtain ⟨hq1, hq2⟩ := querySplit_spec a
      have hr : r = (querySplit a).2 ++ r1.dropWhile runChar := h.2.symm
      have hlen1 : (c :: cs).length = host.length + r1.length := by
        rw [hs]; simp
      have hlen2 : (r1.takeWhile runChar).length +
          (r1.dropWhile runChar).length = r1.length := by
        rw [← List.length_append, List.takeWhile_append_dropWhile]
      have hlen3 : (r1.takeWhile runChar).length =
          b.length + m.length + a.length := by
        rw [hdec]; simp only [List.length_append]
      have hmlen : 1 ≤ m.length := by
        cases m with
        | nil => exact absurd rfl hmne
        | cons _ _ => simp
      have hhost : 1 ≤ host.length := by
        cases host with
        | nil => exact absurd rfl hne
        | cons _ _ => simp
      have hrlen : r.length =
          (querySplit a).2.length + (r1.dropWhile runChar).length := by
        rw [hr]; simp
      simp only [List.length_cons] at hlen1
      omega

theorem dotsSafe_drop_dot {exts : List (List Char)} {s : List Char}
    (hd : dotsSafe exts s = true) (hnil : ∀ e ∈ exts, e ≠ []) :
    ∀ n u, s.drop n = '.' :: u → extsMatch exts u = none := by
  induction s with
  | nil => intro n u h; simp at h
  | cons c cs ih =>
    simp only [dotsSafe, Bool.and_eq_true] at hd
    obtain ⟨hh, ht⟩ := hd
    intro n u h
    cases n with
    | zero =>
      simp only [List.drop_zero, List.cons.injEq] at h
      obtain ⟨hc, hu⟩ := h
      rw [if_pos hc] at hh
      subst hu
      cases cs with
      | nil => exact extsMatch_empty_input hnil
      | cons d w => exact extsMatch_firstCharNo_none (by simpa using hh) w
    | succ n => exact ih ht n u (by simpa using h)

theorem tryAttachment_none_of_drops {exts : List (List Char)}
    {label s : List Char}
    (hH : ∀ n u, s.drop n = '.' :: u → extsMatch exts u = none) :
    tryAttachment exts label s = none := by
  cases hh : tryCdnHost s with
  | none => simp [tryAttachment, hh]
  | some pr =>
    obtain ⟨host, r1⟩ := pr
    obtain ⟨hs, hne⟩ := tryCdnHost_eq hh
    have hld : lastDotSplit exts (r1.takeWhile runChar) = none := by
      apply lastDotSplit_none_of_all
      intro i
      cases hdi : (r1.takeWhile runChar).drop i with
      | nil => rfl
      | cons c u' =>
        by_cases hc : c = '.'
        · subst hc
          have hil : i < (r1.takeWhile runChar).length := by
            by_contra hcon
            push_neg at hcon
            rw [List.drop_of_length_le hcon] at hdi
            exact List.noConfusion hdi
          have hsplit : r1.drop i =
              (r1.takeWhile runChar).drop i ++ r1.dropWhile runChar := by
            conv_lhs => rw [← List.takeWhile_append_dropWhile (p := runChar) (l := r1)]
            rw [List.drop_append_of_le_length (Nat.le_of_lt hil)]
          have hsd : s.drop (host.length + i) =
              '.' :: (u' ++ r1.dropWhile runChar) := by
            rw [hs, List.drop_append, hsplit, hdi]
            rfl
          have hext := hH (host.length + i) _ hsd
          have hu' : extsMatch exts u' = none := extsMatch_none_prefix hext
          simp [dotExtAt, hu']
        · exact dotExtAt_ne_dot hc
    simp [tryAttachment, hh, hld]

theorem scanSub_tryAttachment_id {exts : List (List Char)} {label s : List Char}
    (hd : dotsSafe exts s = true) (hnil : ∀ e ∈ exts, e ≠ []) :
    scanSub (tryAttachment exts label) s = s := by
  apply scanSub_of_no_match
  intro n
  apply tryAttachment_none_of_drops
  intro m u hmu
  rw [List.drop_drop] at hmu
  exact dotsSafe_drop_dot hd hnil (n + m) u hmu

theorem lastDotSplit_nodot {exts : List (List Char)} {l : List Char}
    (h : ∀ c ∈ l, ¬(c = '.')) : lastDotSplit exts l = none := by
  apply lastDotSplit_none_of_all
  intro i
  cases hdi : l.drop i with
  | nil => rfl
  | cons c u' =>
    have hc : c ∈ l := List.drop_subset i l (hdi ▸ List.mem_cons_self c u')
    exact dotExtAt_ne_dot (h c hc)

theorem tryAttachment_cdn_url (exts : List (List Char)) (label p ext z : List Char)
    (hp : ∀ c ∈ p, runChar c = true)
    (hext1 : extsMatch exts ext = some (ext, []))
    (hext2 : ∀ c ∈ ext, runChar c = true ∧ ¬(c = '.'))
    (hz : z = [] ∨ ∃ d w, z = d :: w ∧ runChar d = false) :
    tryAttachment exts label
        (("https://cdn.discordapp.com/".data) ++ ((p ++ '.' :: ext) ++ z)) =
      some (("[URL=https://cdn.discordapp.com/".data) ++ (p ++ '.' :: ext) ++
        (']' :: label) ++ ("[/URL]".data), z) := by
  have hhost : tryCdnHost
      (("https://cdn.discordapp.com/".data) ++ ((p ++ '.' :: ext) ++ z)) =
      some ("https://cdn.discordapp.com/".data, (p ++ '.' :: ext) ++ z) := rfl
  have hall : ∀ c ∈ p ++ '.' :: ext, runChar c = true := by
    intro c hc
    rcases List.mem_append.mp hc with hc | hc
    · exact hp c hc
    · rcases List.mem_cons.mp hc with hc | hc
      · subst hc; rfl
      · exact (hext2 c hc).1
  obtain ⟨htake, hdrop⟩ := takeWhile_append_break (f := runChar) hall hz
  have h1 : lastDotSplit exts ext = none :=
    lastDotSplit_nodot fun c hc => (hext2 c hc).2
  have h2 : lastDotSplit exts ('.' :: ext) = some ([], '.' :: ext, []) := by
    simp [lastDotSplit, h1, dotExtAt, hext1]
  have h3 : lastDotSplit exts (p ++ '.' :: ext) = some (p, '.' :: ext, []) := by
    simpa using lastDotSplit_append_some p h2
  simp only [tryAttachment, hhost, htake, hdrop, h3, querySplit]
  simp [List.append_assoc]

theorem scanSub_cons_some' {t : List Char → Option (List Char × List Char)}
    (ht : Consumes t) {c : Char} {cs s o r : List Char}
    (hs : s = c :: cs) (h : t s = some (o, r)) :
    scanSub t s = o ++ scanSub t r := by
  subst hs
  exact scanSub_cons_some ht h

theorem dotsSafe_append {exts : List (List Char)} {a b : List Char}
    (hlast : a.getLast? ≠ some '.')
    (ha : dotsSafe exts a = true) (hb : dotsSafe exts b = true) :
    dotsSafe exts (a ++ b) = true := by
  induction a with
  | nil => simpa using hb
  | cons c cs ih =>
    simp only [dotsSafe, Bool.and_eq_true] at ha
    obtain ⟨hh, ht⟩ := ha
    cases cs with
    | nil =>
      have hc : ¬(c = '.') := by
        intro h
        exact hlast (by simp [h])
      simp only [List.cons_append, List.nil_append, dotsSafe, Bool.and_eq_true]
      exact ⟨by rw [if_neg hc], hb⟩
    | cons d ds =>
      have hlast' : (d :: ds).getLast? ≠ some '.' := by
        simpa [List.getLast?_cons_cons] using hlast
      have hrec := ih hlast' ht
      simp only [List.cons_append, dotsSafe, Bool.and_eq_true] at hrec ⊢
      refine ⟨?_, hrec.1, hrec.2⟩
      by_cases hc : c = '.'
      · rw [if_pos hc] at hh ⊢
        simpa using hh
      · rw [if_neg hc]

/-- Counterexample to claim C8 as stated: on the input
`https://cdn.discordapp.com/a.mp4.png` — a string containing (here: being)
an attachment-CDN URL with a `.png` extension — the image pass produces the
correct tag, but the video pass then matches `…/a.mp4` inside the produced
tag and rewrites it, so the final result is a corrupted nested tag and the
original URL is not preserved as the link target. -/
theorem shorten_mp4_png_corrupted :
    shorten_discord_attachments
        ("https://cdn.discordapp.com/a.mp4.png".data) =
      (("[URL=[URL=https://cdn.discordapp.com/a.mp4]" ++
        "Click to download video[/URL].png]Click to show image[/URL]").data) ∧
      shorten_discord_attachments
        ("https://cdn.discordapp.com/a.mp4.png".data) ≠
      ("[URL=https://cdn.discordapp.com/a.mp4.png]Click to show image[/URL]".data) :=
  ⟨by decide, by decide⟩

/-- Claim C8 amended: `shorten_discord_attachments` applied to an
attachment-CDN URL with a `.png` extension replaces it by a clickable-link
tag whose visible label is the image label ("Click to show image") and
whose link target is the full original URL, preserved unchanged — provided
no dot of the URL's path is immediately followed by a character that can
begin (case-insensitively) a video or audio extension; otherwise the later
video or audio pass rewrites inside the produced tag (see the
counterexample).  The path `p` ranges over strings of characters accepted
by the pattern's URL body class `[^)\s]`, dots included; the `dotsSafe`
hypotheses state the proviso over the text those passes rescan (the path
followed by the emitted tag remainder). -/
theorem shorten_png_makes_image_link (p : List Char)
    (hp : ∀ c ∈ p, runChar c = true)
    (hv : dotsSafe video_extensions
      (p ++ (".png]Click to show image[/URL]".data)) = true)
    (ha : dotsSafe audio_extensions
      (p ++ (".png]Click to show image[/URL]".data)) = true) :
    shorten_discord_attachments
        (("https://cdn.discordapp.com/".data) ++ (p ++ (".png".data))) =
      ("[URL=https://cdn.discordapp.com/".data) ++
        (p ++ (".png]Click to show image[/URL]".data)) := by
  have hext1 : extsMatch image_extensions ("png".data) =
      some ("png".data, []) := by decide
  have hext2 : ∀ c ∈ ("png".data), runChar c = true ∧ ¬(c = '.') := by decide
  have him := tryAttachment_cdn_url image_extensions
    ("Click to show image".data) p ("png".data) [] hp hext1 hext2 (Or.inl rfl)
  rw [List.append_nil] at him
  have hE : ("[URL=https://cdn.discordapp.com/".data) ++
      (p ++ '.' :: ("png".data)) ++
      (']' :: ("Click to show image".data)) ++ ("[/URL]".data) =
      ("[URL=https://cdn.discordapp.com/".data) ++
        (p ++ (".png]Click to show image[/URL]".data)) := by
    simp only [List.append_assoc]
    rfl
  rw [hE] at him
  have him2 : tryAttachment image_extensions ("Click to show image".data)
      (("https://cdn.discordapp.com/".data) ++ (p ++ (".png".data))) =
      some (("[URL=https://cdn.discordapp.com/".data) ++
        (p ++ (".png]Click to show image[/URL]".data)), []) := him
  have hs0 := scanSub_cons_some' (tryAttachment_consumes image_extensions
    ("Click to show image".data)) rfl him2
  rw [show scanSub (tryAttachment image_extensions
      ("Click to show image".data)) ([] : List Char) = [] from rfl,
    List.append_nil] at hs0
  have hs1 : scanSub
      (tryAttachment image_extensions ("Click to show image".data))
      (("https://cdn.discordapp.com/".data) ++ (p ++ (".png".data))) =
      ("[URL=https://cdn.discordapp.com/".data) ++
        (p ++ (".png]Click to show image[/URL]".data)) := hs0
  have hlastC1 : ("[URL=https://cdn.discordapp.com/".data).getLast? ≠
      some '.' := by decide
  have hvid : scanSub
      (tryAttachment video_extensions ("Click to download video".data))
      (("[URL=https://cdn.discordapp.com/".data) ++
        (p ++ (".png]Click to show image[/URL]".data))) =
      ("[URL=https://cdn.discordapp.com/".data) ++
        (p ++ (".png]Click to show image[/URL]".data)) := by
    apply scanSub_tryAttachment_id
    · exact dotsSafe_append hlastC1 (by decide) hv
    · decide
  have haud : scanSub
      (tryAttachment audio_extensions ("Click to download audio".data))
      (("[URL=https://cdn.discordapp.com/".data) ++
        (p ++ (".png]Click to show image[/URL]".data))) =
      ("[URL=https://cdn.discordapp.com/".data) ++
        (p ++ (".png]Click to show image[/URL]".data)) := by
    apply scanSub_tryAttachment_id
    · exact dotsSafe_append hlastC1 (by decide) ha
    · decide
  unfold shorten_discord_attachments
  rw [hs1, hvid, haud]

/-- Witness for the amended C8 at a concrete dotted path. -/
theorem shorten_png_makes_image_link_witness :
    (∀ c ∈ ("my.photo".data), runChar c = true) ∧
      dotsSafe video_extensions
        (("my.photo".data) ++ (".png]Click to show image[/URL]".data)) = true ∧
      dotsSafe audio_extensions
        (("my.photo".data) ++ (".png]Click to show image[/URL]".data)) = true ∧
      shorten_discord_attachments
        (("https://cdn.discordapp.com/".data) ++
          (("my.photo".data) ++ (".png".data))) =
      ("[URL=https://cdn.discordapp.com/".data) ++
        (("my.photo".data) ++ (".png]Click to show image[/URL]".data)) :=
  ⟨by decide, by decide, by decide,
    shorten_png_makes_image_link _ (by decide) (by decide) (by decide)⟩

/-- Counterexample to claim C4 as stated, in two parts.  First, the queued
item wraps the link tag in parentheses — `on_message` surrounds each
attachment URL with `(` and `)` before shortening — so it does not equal
the claim's `"<name>: hello [URL=...]Click to show image[/URL]"` shape.
Second, for the CDN URL `…/a.mp4.jpg` the video pass re-matches `…/a.mp4`
inside the tag the image pass produced, and the queued item is a corrupted
nested tag whose link target is not the original attachment URL. -/
theorem on_message_hello_jpg_parenthesized :
    on_message 5 9 ⟨5, 7, ("N".data), none, ("hello".data),
        [("https://cdn.discordapp.com/a.jpg".data)]⟩ =
      [("N: hello ([URL=https://cdn.discordapp.com/a.jpg]Click to show image[/URL])".data)] ∧
      on_message 5 9 ⟨5, 7, ("N".data), none, ("hello".data),
        [("https://cdn.discordapp.com/a.jpg".data)]⟩ ≠
      [("N: hello [URL=https://cdn.discordapp.com/a.jpg]Click to show image[/URL]".data)] ∧
      on_message 5 9 ⟨5, 7, ("N".data), none, ("hello".data),
        [("https://cdn.discordapp.com/a.mp4.jpg".data)]⟩ =
      [(("N: hello ([URL=[URL=https://cdn.discordapp.com/a.mp4]" ++
        "Click to download video[/URL].jpg]Click to show image[/URL])").data)] :=
  ⟨by decide, by decide, by decide⟩

theorem replaceChar_id {old : Char} {new l : List Char}
    (h : ∀ c ∈ l, ¬(c = old)) : replaceChar old new l = l := by
  induction l with
  | nil => rfl
  | cons c cs ih =>
    have hc := h c (List.mem_cons_self _ _)
    simp [replaceChar, hc, ih fun x hx => h x (List.mem_cons_of_mem _ hx)]

theorem stripPy_id_of_ends {c1 c2 : Char} (m : List Char)
    (hc1 : isPySpace c1 = false) (hc2 : isPySpace c2 = false) :
    stripPy ((c1 :: m) ++ [c2]) = (c1 :: m) ++ [c2] := by
  unfold stripPy
  have h1 : ((c1 :: m) ++ [c2]).dropWhile isPySpace = (c1 :: m) ++ [c2] := by
    simp [List.dropWhile_cons, hc1]
  rw [h1]
  rw [show ((c1 :: m) ++ [c2]).reverse = c2 :: (c1 :: m).reverse by simp]
  rw [show (c2 :: (c1 :: m).reverse).dropWhile isPySpace =
    c2 :: (c1 :: m).reverse by simp [List.dropWhile_cons, hc2]]
  simp

theorem shorten_hello_jpg (p : List Char)
    (hp : ∀ c ∈ p, runChar c = true)
    (hv : dotsSafe video_extensions
      (p ++ (".jpg]Click to show image[/URL])".data)) = true)
    (ha : dotsSafe audio_extensions
      (p ++ (".jpg]Click to show image[/URL])".data)) = true) :
    shorten_discord_attachments
        (("hello (https://cdn.discordapp.com/".data) ++ (p ++ (".jpg)".data))) =
      ("hello ([URL=https://cdn.discordapp.com/".data) ++
        (p ++ (".jpg]Click to show image[/URL])".data)) := by
  have hj1 : extsMatch image_extensions ("jpg".data) =
      some ("jpg".data, []) := by decide
  have hj2 : ∀ c ∈ ("jpg".data), runChar c = true ∧ ¬(c = '.') := by decide
  have him := tryAttachment_cdn_url image_extensions
    ("Click to show image".data) p ("jpg".data) [')'] hp hj1 hj2
    (Or.inr ⟨')', [], rfl, by decide⟩)
  have hin : (p ++ '.' :: ("jpg".data)) ++ [')'] = p ++ (".jpg)".data) := by
    rw [List.append_assoc]
    rfl
  rw [hin] at him
  have hE2 : ("[URL=https://cdn.discordapp.com/".data) ++
      (p ++ '.' :: ("jpg".data)) ++
      (']' :: ("Click to show image".data)) ++ ("[/URL]".data) =
      ("[URL=https://cdn.discordapp.com/".data) ++
        (p ++ (".jpg]Click to show image[/URL]".data)) := by
    simp only [List.append_assoc]
    rfl
  rw [hE2] at him
  have himg : scanSub
      (tryAttachment image_extensions ("Click to show image".data))
      (("hello (https://cdn.discordapp.com/".data) ++ (p ++ (".jpg)".data))) =
      ("hello ([URL=https://cdn.discordapp.com/".data) ++
        (p ++ (".jpg]Click to show image[/URL])".data)) := by
    show scanSub (tryAttachment image_extensions ("Click to show image".data))
      ('h' :: 'e' :: 'l' :: 'l' :: 'o' :: ' ' :: '(' ::
        (("https://cdn.discordapp.com/".data) ++ (p ++ (".jpg)".data)))) = _
    rw [scanSub_cons_none (show tryAttachment image_extensions
      ("Click to show image".data) ('h' :: 'e' :: 'l' :: 'l' :: 'o' :: ' ' :: '(' ::
        (("https://cdn.discordapp.com/".data) ++ (p ++ (".jpg)".data)))) = none from rfl)]
    rw [scanSub_cons_none (show tryAttachment image_extensions
      ("Click to show image".data) ('e' :: 'l' :: 'l' :: 'o' :: ' ' :: '(' ::
        (("https://cdn.discordapp.com/".data) ++ (p ++ (".jpg)".data)))) = none from rfl)]
    rw [scanSub_cons_none (show tryAttachment image_extensions
      ("Click to show image".data) ('l' :: 'l' :: 'o' :: ' ' :: '(' ::
        (("https://cdn.discordapp.com/".data) ++ (p ++ (".jpg)".data)))) = none from rfl)]
    rw [scanSub_cons_none (show tryAttachment image_extensions
      ("Click to show image".data) ('l' :: 'o' :: ' ' :: '(' ::
        (("https://cdn.discordapp.com/".data) ++ (p ++ (".jpg)".data)))) = none from rfl)]
    rw [scanSub_cons_none (show tryAttachment image_extensions
      ("Click to show image".data) ('o' :: ' ' :: '(' ::
        (("https://cdn.discordapp.com/".data) ++ (p ++ (".jpg)".data)))) = none from rfl)]
    rw [scanSub_cons_none (show tryAttachment image_extensions
      ("Click to show image".data) (' ' :: '(' ::
        (("https://cdn.discordapp.com/".data) ++ (p ++ (".jpg)".data)))) = none from rfl)]
    rw [scanSub_cons_none (show tryAttachment image_extensions
      ("Click to show image".data) ('(' ::
        (("https://cdn.discordapp.com/".data) ++ (p ++ (".jpg)".data)))) = none from rfl)]
    have hmid := scanSub_cons_some' (tryAttachment_consumes image_extensions
      ("Click to show image".data)) rfl him
    have hmid2 : scanSub
        (tryAttachment image_extensions ("Click to show image".data))
        (("https://cdn.discordapp.com/".data) ++ (p ++ (".jpg)".data))) =
        (("[URL=https://cdn.discordapp.com/".data) ++
          (p ++ (".jpg]Click to show image[/URL]".data))) ++
          scanSub (tryAttachment image_extensions
            ("Click to show image".data)) [')'] := hmid
    rw [hmid2, show scanSub (tryAttachment image_extensions
      ("Click to show image".data)) [')'] = [')'] from rfl]
    simp only [List.append_assoc]
    rfl
  have hlastC1 : ("hello ([URL=https://cdn.discordapp.com/".data).getLast? ≠
      some '.' := by decide
  have hvid : scanSub
      (tryAttachment video_extensions ("Click to download video".data))
      (("hello ([URL=https://cdn.discordapp.com/".data) ++
        (p ++ (".jpg]Click to show image[/URL])".data))) =
      ("hello ([URL=https://cdn.discordapp.com/".data) ++
        (p ++ (".jpg]Click to show image[/URL])".data)) := by
    apply scanSub_tryAttachment_id
    · exact dotsSafe_append hlastC1 (by decide) hv
    · decide
  have haud : scanSub
      (tryAttachment audio_extensions ("Click to download audio".data))
      (("hello ([URL=https://cdn.discordapp.com/".data) ++
        (p ++ (".jpg]Click to show image[/URL])".data))) =
      ("hello ([URL=https://cdn.discordapp.com/".data) ++
        (p ++ (".jpg]Click to show image[/URL])".data)) := by
    apply scanSub_tryAttachment_id
    · exact dotsSafe_append hlastC1 (by decide) ha
    · decide
  unfold shorten_discord_attachments
  rw [himg, hvid, haud]

theorem runChar_ne_newline {c : Char} (h : runChar c = true) : ¬(c = '\n') := by
  intro hc
  subst hc
  simp [runChar, isPySpace] at h

/-- Claim C4 amended: an inbound platform message "hello" in the bridged
channel from a non-bot, non-webhook author, with exactly one attachment
whose URL is a CDN URL ending in `.jpg`, produces exactly one item on the
platform-to-query queue, equal to
`"<name>: hello ([URL=...]Click to show image[/URL])"` — the link tag sits
inside the parentheses `on_message` puts around every attachment URL, and
the link target inside the tag is the original attachment URL unchanged —
provided no dot of the URL's path is immediately followed by a character
that can begin (case-insensitively) a video or audio extension; otherwise
the later passes rewrite inside the tag (see the counterexample).  The
path `p` ranges over strings of URL-body characters (`[^)\s]`), dots
included; the `dotsSafe` hypotheses state the proviso over the text the
video and audio passes rescan. -/
theorem on_message_hello_jpg_queue (cid uid aid : Int) (name p : List Char)
    (haid : ¬(aid = uid)) (hp : ∀ c ∈ p, runChar c = true)
    (hv : dotsSafe video_extensions
      (p ++ (".jpg]Click to show image[/URL])".data)) = true)
    (ha : dotsSafe audio_extensions
      (p ++ (".jpg]Click to show image[/URL])".data)) = true) :
    on_message cid uid ⟨cid, aid, name, none, ("hello".data),
        [("https://cdn.discordapp.com/".data) ++ (p ++ (".jpg".data))]⟩ =
      [name ++ ((": hello ([URL=https://cdn.discordapp.com/".data) ++
        (p ++ (".jpg]Click to show image[/URL])".data)))] := by
  have hA : ∀ c ∈ ("https://cdn.discordapp.com/".data), ¬(c = '\n') := by decide
  have hB : ∀ c ∈ (".jpg".data), ¬(c = '\n') := by decide
  have hu : ∀ c ∈ (("https://cdn.discordapp.com/".data) ++ (p ++ (".jpg".data))),
      ¬(c = '\n') := by
    intro c hc
    rcases List.mem_append.mp hc with hc | hc
    · exact hA c hc
    · rcases List.mem_append.mp hc with hc | hc
      · exact runChar_ne_newline (hp c hc)
      · exact hB c hc
  have hpart2mem : ∀ c ∈ ('(' ::
      (("https://cdn.discordapp.com/".data) ++ (p ++ (".jpg".data)))) ++ [')'],
      ¬(c = '\n') := by
    intro c hc
    rcases List.mem_append.mp hc with hc | hc
    · rcases List.mem_cons.mp hc with hc | hc
      · subst hc; decide
      · exact hu c hc
    · rcases List.mem_cons.mp hc with hc | hc
      · subst hc; decide
      · cases hc
  have h2a : replaceChar '\n' [' ']
      (('(' :: (("https://cdn.discordapp.com/".data) ++ (p ++ (".jpg".data)))) ++ [')']) =
      ('(' :: (("https://cdn.discordapp.com/".data) ++ (p ++ (".jpg".data)))) ++ [')'] :=
    replaceChar_id hpart2mem
  have h2b : stripPy
      (('(' :: (("https://cdn.discordapp.com/".data) ++ (p ++ (".jpg".data)))) ++ [')']) =
      ('(' :: (("https://cdn.discordapp.com/".data) ++ (p ++ (".jpg".data)))) ++ [')'] :=
    stripPy_id_of_ends _ (by decide) (by decide)
  have hraw : stripPy (("hello".data) ++ ' ' ::
      (('(' :: (("https://cdn.discordapp.com/".data) ++ (p ++ (".jpg".data)))) ++ [')'])) =
      ("hello".data) ++ ' ' ::
      (('(' :: (("https://cdn.discordapp.com/".data) ++ (p ++ (".jpg".data)))) ++ [')']) :=
    stripPy_id_of_ends
      (("ello (".data) ++ (("https://cdn.discordapp.com/".data) ++ (p ++ (".jpg".data))))
      (by decide) (by decide)
  have hR0S : ("hello".data) ++ ' ' ::
      (('(' :: (("https://cdn.discordapp.com/".data) ++ (p ++ (".jpg".data)))) ++ [')']) =
      ("hello (https://cdn.discordapp.com/".data) ++ (p ++ (".jpg)".data)) := by
    show ("hello (".data) ++
      ((("https://cdn.discordapp.com/".data) ++ (p ++ (".jpg".data))) ++ [')']) = _
    rw [List.append_assoc, List.append_assoc]
    rfl
  have hshort := shorten_hello_jpg p hp hv ha
  have hM2 : stripPy (replaceChar '\n' [' ']
      (('(' :: (("https://cdn.discordapp.com/".data) ++ (p ++ (".jpg".data)))) ++ [')'])) =
      ('(' :: (("https://cdn.discordapp.com/".data) ++ (p ++ (".jpg".data)))) ++ [')'] := by
    rw [h2a, h2b]
  simp only [on_message]
  rw [if_neg (show ¬(cid ≠ cid) from fun h => h rfl)]
  rw [if_neg haid]
  show [name ++ (':' :: ' ' :: shorten_discord_attachments (stripPy (joinSpace
    [stripPy (replaceChar '\n' [' '] (stripPy ("hello".data))),
     stripPy (replaceChar '\n' [' ']
       (('(' :: (("https://cdn.discordapp.com/".data) ++ (p ++ (".jpg".data)))) ++ [')']))])))] = _
  rw [hM2]
  rw [show joinSpace [stripPy (replaceChar '\n' [' '] (stripPy ("hello".data))),
    ('(' :: (("https://cdn.discordapp.com/".data) ++ (p ++ (".jpg".data)))) ++ [')']] =
    ("hello".data) ++ ' ' ::
      (('(' :: (("https://cdn.discordapp.com/".data) ++ (p ++ (".jpg".data)))) ++ [')'])
    from rfl]
  rw [hraw, hR0S, hshort]
  rfl

/-- Witness for the amended C4 at concrete ids, name and a dotted path. -/
theorem on_message_hello_jpg_queue_witness :
    (¬((7 : Int) = 9)) ∧
      (∀ c ∈ ("e/my.photo".data), runChar c = true) ∧
      dotsSafe video_extensions
        (("e/my.photo".data) ++ (".jpg]Click to show image[/URL])".data)) = true ∧
      dotsSafe audio_extensions
        (("e/my.photo".data) ++ (".jpg]Click to show image[/URL])".data)) = true ∧
      on_message 5 9 ⟨5, 7, ("N".data), none, ("hello".data),
        [("https://cdn.discordapp.com/".data) ++
          (("e/my.photo".data) ++ (".jpg".data))]⟩ =
      [("N".data) ++ ((": hello ([URL=https://cdn.discordapp.com/".data) ++
        (("e/my.photo".data) ++ (".jpg]Click to show image[/URL])".data)))] :=
  ⟨by decide, by decide, by decide, by decide,
    on_message_hello_jpg_queue 5 9 7 _ _ (by decide) (by decide) (by decide)
      (by decide)⟩
